import Mathlib

/-! Bit-banged SPI bus master (`include/nuttx/spi/spi_bitbang.c`).

A shallow embedding of the driver fragment: the frequency calculator
`spi_setfrequency`, the mode selector `spi_setmode`, the four per-mode bit
exchanges `spi_bitexchange0` .. `spi_bitexchange3` and the word exchange
`spi_exchange`.  Machine integers are natural numbers with an explicit
reduction modulo `2^w` wherever the C type truncates.
-/

namespace SpiBitbang

/-! ## Pin-control capability -/

/-- One operation requested from the pin-control capability. -/
inductive Op where
  | setData (high : Bool)
  | setClock (high : Bool)
  | sampleData
  | delay (usec : Nat)
  deriving DecidableEq

/-- Modelled from the spec: the board macros `SPI_SETSCK`/`SPI_CLRSCK`,
`SPI_SETMOSI`/`SPI_CLRMOSI`, `SPI_GETMISO` and the primitive `up_udelay` are
supplied by the board file that includes the driver and are not part of it.
They are the capability handle of the spec: `setClock(high)`, `setData(high)`,
`sampleData() -> bool` and `delayMicroseconds(count)`, acting on a board
state `σ`. -/
structure Cap (σ : Type) where
  setClock : Bool → σ → σ
  setData : Bool → σ → σ
  sampleData : σ → Bool × σ
  delay : Nat → σ → σ

/-- Loopback capability: the board state is the level of the data line, and
sampling returns the level most recently written by `setData`. -/
def loopback : Cap Bool where
  setClock := fun _ s => s
  setData := fun b _ => b
  sampleData := fun s => (s, s)
  delay := fun _ s => s

/-- Scripted slave: the board state is the list of levels the slave presents
at the successive samples (a sample past the end of the script reads low). -/
def scripted : Cap (List Bool) where
  setClock := fun _ s => s
  setData := fun _ s => s
  sampleData := fun s => (s.headD false, s.tail)
  delay := fun _ s => s

/-- Recording wrapper: behaves as `c` and appends every requested operation to
a log kept next to the board state. -/
def traced {σ : Type} (c : Cap σ) : Cap (σ × List Op) where
  setClock := fun b s => (c.setClock b s.1, s.2 ++ [Op.setClock b])
  setData := fun b s => (c.setData b s.1, s.2 ++ [Op.setData b])
  sampleData := fun s => ((c.sampleData s.1).1, ((c.sampleData s.1).2, s.2 ++ [Op.sampleData]))
  delay := fun n s => (c.delay n s.1, s.2 ++ [Op.delay n])

/-! ## Bus context -/

/-- The closed set of functions a `bitexchange_t` pointer of the driver can
hold. -/
inductive bitexchange_t where
  | bitexchange0
  | bitexchange1
  | bitexchange2
  | bitexchange3
  deriving DecidableEq

/-- The fields of `struct spi_bitbang_s` the driver fragment reads or writes:
the hold time in microseconds (`uint32_t`), the selected bit exchange and the
word width (`CONFIG_SPI_BITBANG_VARWIDTH` only). -/
structure spi_bitbang_s where
  holdtime : Nat
  exchange : bitexchange_t
  nbits : Nat
  deriving DecidableEq

/-- Result of a call that can stop at a fatal condition: either it returned
`ret` leaving the state `st`, or it halted with the state as it was then. -/
inductive Outcome (ρ α : Type) where
  | returned (ret : α) (st : ρ)
  | halted (st : ρ)

/-- The state a call left behind, whether it returned or halted. -/
def Outcome.state {ρ α : Type} : Outcome ρ α → ρ
  | Outcome.returned _ st => st
  | Outcome.halted st => st

/-- The returned value, if the call returned. -/
def Outcome.ret? {ρ α : Type} : Outcome ρ α → Option α
  | Outcome.returned r _ => some r
  | Outcome.halted _ => none

/-! ## Frequency calculator -/

/-- Line 172: `pnsec = (1000000000ul + (frequency >> 1)) / frequency` in
32-bit unsigned arithmetic (`frequency` non-zero). -/
def spi_period (frequency : Nat) : Nat :=
  ((1000000000 + (frequency >>> 1)) % 2 ^ 32) / frequency

/-- Lines 176-183: the period minus the per-bit overhead, clamped at zero. -/
def spi_remaining (SPI_PERBIT_NSEC pnsec : Nat) : Nat :=
  if pnsec > SPI_PERBIT_NSEC then (pnsec - SPI_PERBIT_NSEC) % 2 ^ 32 else 0

/-- Line 187: `(((pnsec + 1) >> 1) + 500) / 1000` in 32-bit unsigned
arithmetic. -/
def spi_hold (pnsec : Nat) : Nat :=
  (((((pnsec + 1) % 2 ^ 32) >>> 1) + 500) % 2 ^ 32) / 1000

/-- Line 200: `pnsec = 2000 * priv->holdtime + SPI_PERBIT_NSEC` in 32-bit
unsigned arithmetic. -/
def spi_actual_period (SPI_PERBIT_NSEC holdtime : Nat) : Nat :=
  (2000 * holdtime + SPI_PERBIT_NSEC) % 2 ^ 32

/-- The function `spi_setfrequency`, with the board constant
`SPI_PERBIT_NSEC` as a parameter.  A division by zero halts the call: at
line 172 before the hold time is stored, at line 201 after it. -/
def spi_setfrequency (SPI_PERBIT_NSEC : Nat) (priv : spi_bitbang_s) (frequency : Nat) :
    Outcome spi_bitbang_s Nat :=
  if frequency = 0 then Outcome.halted priv
  else
    let pnsec := spi_period frequency
    let pnsec := spi_remaining SPI_PERBIT_NSEC pnsec
    let priv := { priv with holdtime := spi_hold pnsec }
    let pnsec := spi_actual_period SPI_PERBIT_NSEC priv.holdtime
    if pnsec = 0 then Outcome.halted priv
    else Outcome.returned (1000000000 / pnsec) priv

/-- The formula of `spi_setfrequency` over unbounded integers, with no
reduction modulo 2^32 anywhere: the reference the 32-bit computation is
compared with. -/
def spi_setfrequency_unbounded (SPI_PERBIT_NSEC : Nat) (priv : spi_bitbang_s)
    (frequency : Nat) : Outcome spi_bitbang_s Nat :=
  if frequency = 0 then Outcome.halted priv
  else
    let pnsec := (1000000000 + frequency / 2) / frequency
    let pnsec := if pnsec > SPI_PERBIT_NSEC then pnsec - SPI_PERBIT_NSEC else 0
    let priv := { priv with holdtime := ((pnsec + 1) / 2 + 500) / 1000 }
    let pnsec := 2000 * priv.holdtime + SPI_PERBIT_NSEC
    if pnsec = 0 then Outcome.halted priv
    else Outcome.returned (1000000000 / pnsec) priv

/-! ## Mode selector -/

/-- The build switches that compile a mode out. -/
structure Config where
  CONFIG_SPI_BITBANG_DISABLEMODE0 : Bool
  CONFIG_SPI_BITBANG_DISABLEMODE1 : Bool
  CONFIG_SPI_BITBANG_DISABLEMODE2 : Bool
  CONFIG_SPI_BITBANG_DISABLEMODE3 : Bool

/-- Build with all four modes enabled. -/
def allModes : Config := ⟨false, false, false, false⟩

/-- Modelled from the spec: the macro `DEBUGPANIC` is not defined in the
driver file; the spec makes a disabled or out-of-range mode a fatal,
unrecoverable condition, so the macro halts the call in the state it is
reached in. -/
def DEBUGPANIC {ρ α : Type} (st : ρ) : Outcome ρ α := Outcome.halted st

/-- The function `spi_setmode`; `mode` is the value of the `enum spi_mode_e`
argument (`SPIDEV_MODE0` = 0 .. `SPIDEV_MODE3` = 3). -/
def spi_setmode {σ : Type} (cfg : Config) (c : Cap σ) (priv : spi_bitbang_s) (mode : Nat)
    (s : σ) : Outcome (spi_bitbang_s × σ) Unit :=
  match mode with
  | 0 =>
    if cfg.CONFIG_SPI_BITBANG_DISABLEMODE0 then DEBUGPANIC (priv, s)
    else
      let s := c.setClock false s
      let priv := { priv with exchange := bitexchange_t.bitexchange0 }
      Outcome.returned () (priv, s)
  | 1 =>
    if cfg.CONFIG_SPI_BITBANG_DISABLEMODE1 then DEBUGPANIC (priv, s)
    else
      let s := c.setClock false s
      let priv := { priv with exchange := bitexchange_t.bitexchange1 }
      Outcome.returned () (priv, s)
  | 2 =>
    if cfg.CONFIG_SPI_BITBANG_DISABLEMODE2 then DEBUGPANIC (priv, s)
    else
      let s := c.setClock true s
      let priv := { priv with exchange := bitexchange_t.bitexchange2 }
      Outcome.returned () (priv, s)
  | 3 =>
    if cfg.CONFIG_SPI_BITBANG_DISABLEMODE3 then DEBUGPANIC (priv, s)
    else
      let s := c.setClock true s
      let priv := { priv with exchange := bitexchange_t.bitexchange3 }
      Outcome.returned () (priv, s)
  | _ => DEBUGPANIC (priv, s)

/-- Whether `mode` is one of the four modes and is not compiled out. -/
def modeEnabled (cfg : Config) (mode : Nat) : Bool :=
  (mode = 0 && !cfg.CONFIG_SPI_BITBANG_DISABLEMODE0)
    || (mode = 1 && !cfg.CONFIG_SPI_BITBANG_DISABLEMODE1)
    || (mode = 2 && !cfg.CONFIG_SPI_BITBANG_DISABLEMODE2)
    || (mode = 3 && !cfg.CONFIG_SPI_BITBANG_DISABLEMODE3)

/-! ## Bit exchanges -/

/-- The function `spi_bitexchange0` (CPOL=0, CPHA=0): returns `datain` and
the board state. -/
def spi_bitexchange0 {σ : Type} (c : Cap σ) (priv : spi_bitbang_s) (dataout : Nat) (s : σ) :
    Nat × σ :=
  let s := if dataout ≠ 0 then c.setData true s else c.setData false s
  let s := c.setClock true s
  let m := c.sampleData s
  let datain := m.1.toNat
  let s := m.2
  let s := if priv.holdtime ≠ 0 then c.delay priv.holdtime s else s
  let s := c.setClock false s
  let s := if priv.holdtime ≠ 0 then c.delay priv.holdtime s else s
  (datain, s)

/-- The function `spi_bitexchange1` (CPOL=0, CPHA=1). -/
def spi_bitexchange1 {σ : Type} (c : Cap σ) (priv : spi_bitbang_s) (dataout : Nat) (s : σ) :
    Nat × σ :=
  let s := c.setClock true s
  let s := if dataout ≠ 0 then c.setData true s else c.setData false s
  let s := if priv.holdtime ≠ 0 then c.delay priv.holdtime s else s
  let s := c.setClock false s
  let m := c.sampleData s
  let datain := m.1.toNat
  let s := m.2
  let s := if priv.holdtime ≠ 0 then c.delay priv.holdtime s else s
  (datain, s)

/-- The function `spi_bitexchange2` (CPOL=1, CPHA=0). -/
def spi_bitexchange2 {σ : Type} (c : Cap σ) (priv : spi_bitbang_s) (dataout : Nat) (s : σ) :
    Nat × σ :=
  let s := if dataout ≠ 0 then c.setData true s else c.setData false s
  let s := c.setClock false s
  let m := c.sampleData s
  let datain := m.1.toNat
  let s := m.2
  let s := if priv.holdtime ≠ 0 then c.delay priv.holdtime s else s
  let s := c.setClock true s
  let s := if priv.holdtime ≠ 0 then c.delay priv.holdtime s else s
  (datain, s)

/-- The function `spi_bitexchange3` (CPOL=1, CPHA=1). -/
def spi_bitexchange3 {σ : Type} (c : Cap σ) (priv : spi_bitbang_s) (dataout : Nat) (s : σ) :
    Nat × σ :=
  let s := c.setClock false s
  let s := if dataout ≠ 0 then c.setData true s else c.setData false s
  let s := if priv.holdtime ≠ 0 then c.delay priv.holdtime s else s
  let s := c.setClock true s
  let m := c.sampleData s
  let datain := m.1.toNat
  let s := m.2
  let s := if priv.holdtime ≠ 0 then c.delay priv.holdtime s else s
  (datain, s)

/-- The indirect call `priv->exchange(priv, dataout)`. -/
def call_exchange {σ : Type} (c : Cap σ) (priv : spi_bitbang_s) (dataout : Nat) (s : σ) :
    Nat × σ :=
  match priv.exchange with
  | bitexchange_t.bitexchange0 => spi_bitexchange0 c priv dataout s
  | bitexchange_t.bitexchange1 => spi_bitexchange1 c priv dataout s
  | bitexchange_t.bitexchange2 => spi_bitexchange2 c priv dataout s
  | bitexchange_t.bitexchange3 => spi_bitexchange3 c priv dataout s

/-! ## Word exchange -/

/-- The fixed-width `spi_exchange` (lines 502-551): `datain` is a `uint8_t`,
so every assignment to it is reduced modulo 256; the `uint16_t` result is
`datain`. -/
def spi_exchange {σ : Type} (c : Cap σ) (priv : spi_bitbang_s) (dataout : Nat) (s : σ) :
    Nat × σ :=
  let r := call_exchange c priv (dataout &&& (1 <<< 7)) s
  let datain := r.1 % 256
  let datain := (datain <<< 1) % 256
  let r := call_exchange c priv (dataout &&& (1 <<< 6)) r.2
  let datain := (datain ||| r.1) % 256
  let datain := (datain <<< 1) % 256
  let r := call_exchange c priv (dataout &&& (1 <<< 5)) r.2
  let datain := (datain ||| r.1) % 256
  let datain := (datain <<< 1) % 256
  let r := call_exchange c priv (dataout &&& (1 <<< 4)) r.2
  let datain := (datain ||| r.1) % 256
  let datain := (datain <<< 1) % 256
  let r := call_exchange c priv (dataout &&& (1 <<< 3)) r.2
  let datain := (datain ||| r.1) % 256
  let datain := (datain <<< 1) % 256
  let r := call_exchange c priv (dataout &&& (1 <<< 2)) r.2
  let datain := (datain ||| r.1) % 256
  let datain := (datain <<< 1) % 256
  let r := call_exchange c priv (dataout &&& (1 <<< 1)) r.2
  let datain := (datain ||| r.1) % 256
  let datain := (datain <<< 1) % 256
  let r := call_exchange c priv (dataout &&& (1 <<< 0)) r.2
  let datain := (datain ||| r.1) % 256
  (datain, r.2)

/-- The loop of the variable-width `spi_exchange` (lines 487-496), entered
with the mask `bit` and the accumulator `datain`, both `uint16_t`.  `fuel`
bounds the number of iterations: running out of it before `bit` is zero gives
`none`. -/
def spi_exchange_loop {σ : Type} (c : Cap σ) (priv : spi_bitbang_s) (dataout : Nat) :
    Nat → Nat → Nat → σ → Option (Nat × σ)
  | 0, bit, datain, s => if bit ≠ 0 then none else some (datain, s)
  | fuel + 1, bit, datain, s =>
    if bit ≠ 0 then
      let datain := (datain <<< 1) % 65536
      let r := call_exchange c priv (dataout &&& bit) s
      let datain := (datain ||| r.1) % 65536
      spi_exchange_loop c priv dataout fuel (bit >>> 1) datain r.2
    else some (datain, s)

/-- The variable-width `spi_exchange` (lines 475-499, built with
`CONFIG_SPI_BITBANG_VARWIDTH`).  The local `datain` is declared without an
initial value and first read by `datain <<= 1`; the value it holds on entry
is the parameter `datain`.  Line 486 is read as `shift = priv->nbits - 1;`
(the source lacks the semicolon).  The `int` expression `1 << shift` is
undefined for a shift count outside 0..30, which gives `none`; its value is
then converted to the `uint16_t` mask.  Sixteen iterations of fuel are given
to the loop, one for every bit of the mask. -/
def spi_exchange_varwidth {σ : Type} (c : Cap σ) (priv : spi_bitbang_s) (dataout : Nat)
    (datain : Nat) (s : σ) : Option (Nat × σ) :=
  if priv.nbits = 0 ∨ priv.nbits > 31 then none
  else
    let shift := priv.nbits - 1
    spi_exchange_loop c priv dataout 16 ((1 <<< shift) % 65536) datain s

/-! ## The bus as a state machine -/

/-- A board whose state is the level of the clock line, the level of the
data-out line and the levels the slave presents at the successive samples. -/
structure Pins where
  sck : Bool
  mosi : Bool
  miso : List Bool
  deriving DecidableEq

/-- The capability acting on `Pins`. -/
def pins : Cap Pins where
  setClock := fun b s => { s with sck := b }
  setData := fun b s => { s with mosi := b }
  sampleData := fun s => (s.miso.headD false, { s with miso := s.miso.tail })
  delay := fun _ s => s

/-- A call made on the bus once a mode has been selected: `spi_setfrequency`,
one bit exchange through `priv->exchange`, the fixed-width `spi_exchange`,
or the variable-width `spi_exchange` entered with the accumulator holding
`datain`. -/
inductive BusOp where
  | setfrequency (frequency : Nat)
  | bitexchange (dataout : Nat)
  | exchange (dataout : Nat)
  | exchange_varwidth (dataout datain : Nat)
  deriving DecidableEq

/-- One call on the pair of the bus context and the board.  The callee gets
the context by pointer: `spi_setfrequency` stores the hold time through it
and touches no pin; the exchanges only read it.  A call with no defined
result halts in the state it was made in. -/
def step {σ : Type} (SPI_PERBIT_NSEC : Nat) (c : Cap σ) (op : BusOp)
    (m : spi_bitbang_s × σ) : Outcome (spi_bitbang_s × σ) Nat :=
  match op with
  | BusOp.setfrequency frequency =>
    match spi_setfrequency SPI_PERBIT_NSEC m.1 frequency with
    | Outcome.returned ret priv => Outcome.returned ret (priv, m.2)
    | Outcome.halted priv => Outcome.halted (priv, m.2)
  | BusOp.bitexchange dataout =>
    Outcome.returned (call_exchange c m.1 dataout m.2).1
      (m.1, (call_exchange c m.1 dataout m.2).2)
  | BusOp.exchange dataout =>
    Outcome.returned (spi_exchange c m.1 dataout m.2).1 (m.1, (spi_exchange c m.1 dataout m.2).2)
  | BusOp.exchange_varwidth dataout datain =>
    match spi_exchange_varwidth c m.1 dataout datain m.2 with
    | some r => Outcome.returned r.1 (m.1, r.2)
    | none => Outcome.halted m

/-- A finite sequence of calls, made one after the other; a call that halts
ends the run. -/
def run {σ : Type} (SPI_PERBIT_NSEC : Nat) (c : Cap σ) :
    List BusOp → spi_bitbang_s × σ → spi_bitbang_s × σ
  | [], m => m
  | op :: ops, m =>
    match step SPI_PERBIT_NSEC c op m with
    | Outcome.returned _ m1 => run SPI_PERBIT_NSEC c ops m1
    | Outcome.halted m1 => m1

/-- The idle clock level of a mode: low for modes 0 and 1, high for modes 2
and 3. -/
def idleLevel (mode : Nat) : Bool := decide (2 ≤ mode)

/-- The bit exchange that implements a mode. -/
def modeExchange : Nat → bitexchange_t
  | 0 => bitexchange_t.bitexchange0
  | 1 => bitexchange_t.bitexchange1
  | 2 => bitexchange_t.bitexchange2
  | _ => bitexchange_t.bitexchange3

/-- The clock level a bit exchange leaves behind. -/
def restLevel : bitexchange_t → Bool
  | bitexchange_t.bitexchange0 => false
  | bitexchange_t.bitexchange1 => false
  | bitexchange_t.bitexchange2 => true
  | bitexchange_t.bitexchange3 => true

/-! ## Observations on a recorded log -/

/-- The delays requested, in microseconds, in order. -/
def delays : List Op → List Nat
  | [] => []
  | Op.delay usec :: ops => usec :: delays ops
  | _ :: ops => delays ops

/-- The operations requested before the data-in line is first sampled, that
is, up to and including the clock edge at which it is sampled. -/
def beforeSample : List Op → List Op
  | [] => []
  | Op.sampleData :: _ => []
  | op :: ops => op :: beforeSample ops

/-- The operations requested after the data-in line is first sampled. -/
def afterSample : List Op → List Op
  | [] => []
  | Op.sampleData :: ops => ops
  | _ :: ops => afterSample ops

/-- The same operation with the clock level inverted. -/
def invertClock : Op → Op
  | Op.setClock high => Op.setClock (!high)
  | op => op

/-- The clock levels written, in order. -/
def clockLevels : List Op → List Bool
  | [] => []
  | Op.setClock high :: ops => high :: clockLevels ops
  | _ :: ops => clockLevels ops

/-- The data-out levels written, in order. -/
def dataLevels : List Op → List Bool
  | [] => []
  | Op.setData high :: ops => high :: dataLevels ops
  | _ :: ops => dataLevels ops

/-- A board that ignores every operation and always samples low. -/
def idleBoard : Cap Unit where
  setClock := fun _ s => s
  setData := fun _ s => s
  sampleData := fun s => (false, s)
  delay := fun _ s => s

/-- The operations one invocation of the active bit exchange requests when
its data argument is non-zero (`high`) or zero, recorded from an empty log. -/
def waveformOps (priv : spi_bitbang_s) (high : Bool) : List Op :=
  (call_exchange (traced idleBoard) priv (if high then 1 else 0) ((), [])).2.2

/-- The operations of `n` successive invocations of the active bit exchange
that carry the bit positions `n - 1` down to 0 of `dataout`. -/
def wordOps (priv : spi_bitbang_s) (dataout : Nat) : Nat → List Op
  | 0 => []
  | n + 1 => waveformOps priv (dataout.testBit n) ++ wordOps priv dataout n

end SpiBitbang

namespace Highpri

/-! ## Board demo: the high-priority interrupt handlers
(`boards/arm/stm32/stm32f429i-disco/src/stm32_highpri.c`) -/

/-- The build switches the two handlers depend on.  `adc_handler` is compiled
when `CONFIG_STM32_ADC1_DMA` is off or `HIGHPRI_HAVE_INJECTED` is on,
`dma2s0_handler` when `CONFIG_STM32_ADC1_DMA` is on. -/
structure BuildConfig where
  CONFIG_STM32_ADC1_DMA : Bool
  HIGHPRI_HAVE_INJECTED : Bool

/-- The macro `REG_NCHANNELS`, 1 in either build. -/
def REG_NCHANNELS : Nat := 1

/-- The macro `INJ_NCHANNELS`: `CONFIG_STM32_ADC1_INJECTED_CHAN`, which the
file restricts to 1, when injected channels are built in, else 0. -/
def INJ_NCHANNELS (cfg : BuildConfig) : Nat :=
  if cfg.HIGHPRI_HAVE_INJECTED then 1 else 0

/-- The fields of `struct highpri_s` the handlers read or write.  `F` stands
for the type `float`. -/
structure highpri_s (F : Type) where
  cntr1 : Nat
  cntr2 : Nat
  current : Nat
  r_val : List Nat
  r_volt : List F
  j_val : List Nat
  j_volt : List F
  lock : Bool
  deriving DecidableEq

/-- The values the hardware accessors return during one run of a handler:
`STM32_ADC_INT_GET`, `STM32_ADC_REGDATA_GET`, `STM32_ADC_INJDATA_GET(adc, i)`
and `stm32_dma_intget`.  The accessors are defined outside this file. -/
structure HwReads where
  adc_int : Nat
  regdata : Nat
  injdata : Nat → Nat
  dma_int : Nat

/-- The function `adc_handler`.  `ADC_ISR_EOC` and `ADC_ISR_JEOC` are the flag
masks of the chip header, `conv v` is the `float` expression
`(float)v * ref / bit`.  The result is the shared state the run leaves and
the flags it passes to `STM32_ADC_INT_ACK`; a store to `r_val` past its
`REG_NCHANNELS` elements has no defined result. -/
def adc_handler {F : Type} (cfg : BuildConfig) (ADC_ISR_EOC ADC_ISR_JEOC : Nat)
    (conv : Nat → F) (hw : HwReads) (g : highpri_s F) : Option (highpri_s F × Nat) :=
  let pending := hw.adc_int % 2 ^ 32
  if g.lock = true then some (g, pending)
  else
    let regular : Option (highpri_s F) :=
      if cfg.CONFIG_STM32_ADC1_DMA = false ∧ pending &&& ADC_ISR_EOC ≠ 0 then
        if g.current < REG_NCHANNELS then
          let g := { g with cntr1 := (g.cntr1 + 1) % 2 ^ 32 }
          let g := { g with r_val := g.r_val.set g.current (hw.regdata % 65536) }
          let g := { g with r_volt := g.r_volt.set g.current (conv (g.r_val.getD g.current 0)) }
          let g :=
            if g.current ≥ REG_NCHANNELS - 1 then { g with current := 0 }
            else { g with current := (g.current + 1) % 256 }
          some g
        else none
      else some g
    match regular with
    | none => none
    | some g =>
      let g :=
        if cfg.HIGHPRI_HAVE_INJECTED = true ∧ pending &&& ADC_ISR_JEOC ≠ 0 then
          let g := { g with cntr2 := (g.cntr2 + 1) % 2 ^ 32 }
          let g := (List.range (INJ_NCHANNELS cfg)).foldl
            (fun g i => { g with j_val := g.j_val.set i (hw.injdata i % 65536) }) g
          let g := (List.range (INJ_NCHANNELS cfg)).foldl
            (fun g i => { g with j_volt := g.j_volt.set i (conv (g.j_val.getD i 0)) }) g
          g
        else g
      some (g, pending)

/-- The function `dma2s0_handler`: the shared state the run leaves and the
flags it passes to `stm32_dma_intack` (`pending` is a `uint8_t`). -/
def dma2s0_handler {F : Type} (conv : Nat → F) (hw : HwReads) (g : highpri_s F) :
    highpri_s F × Nat :=
  let pending := hw.dma_int % 256
  if g.lock = true then (g, pending)
  else
    let g := { g with cntr1 := (g.cntr1 + 1) % 2 ^ 32 }
    let g := (List.range REG_NCHANNELS).foldl
      (fun g i => { g with r_volt := g.r_volt.set i (conv (g.r_val.getD i 0)) }) g
    (g, pending)

end Highpri

namespace SpiBitbang

/-! ## Auxiliary lemmas -/

theorem call_exchange_loopback (priv : spi_bitbang_s) (d : Nat) (s : Bool) :
    call_exchange loopback priv d s = ((decide (d ≠ 0)).toNat, decide (d ≠ 0)) := by
  unfold call_exchange
  cases priv.exchange <;>
    simp only [spi_bitexchange0, spi_bitexchange1, spi_bitexchange2, spi_bitexchange3, loopback] <;>
    by_cases hd : d = 0 <;> simp [hd]

theorem call_exchange_scripted (priv : spi_bitbang_s) (d : Nat) (s : List Bool) :
    call_exchange scripted priv d s = ((s.headD false).toNat, s.tail) := by
  unfold call_exchange
  cases priv.exchange <;>
    simp only [spi_bitexchange0, spi_bitexchange1, spi_bitexchange2, spi_bitexchange3, scripted] <;>
    simp

theorem call_exchange_nonzero {σ : Type} (c : Cap σ) (priv : spi_bitbang_s) (d : Nat) (s : σ) :
    call_exchange c priv d s = call_exchange c priv (decide (d ≠ 0)).toNat s := by
  unfold call_exchange
  cases priv.exchange <;>
    simp only [spi_bitexchange0, spi_bitexchange1, spi_bitexchange2, spi_bitexchange3] <;>
    by_cases hd : d = 0 <;> simp [hd]

theorem call_exchange_bit {σ : Type} (c : Cap σ) (priv : spi_bitbang_s) (x i : Nat) (s : σ) :
    call_exchange c priv (x &&& (1 <<< i)) s = call_exchange c priv (x.testBit i).toNat s := by
  rw [call_exchange_nonzero, Nat.one_shiftLeft, Nat.and_two_pow]
  cases x.testBit i <;> simp

theorem call_exchange_traced_log {σ : Type} (c : Cap σ) (priv : spi_bitbang_s) (b : Bool)
    (st : σ × List Op) :
    (call_exchange (traced c) priv b.toNat st).2.2 = st.2 ++ waveformOps priv b := by
  unfold waveformOps call_exchange
  cases priv.exchange <;>
    simp only [spi_bitexchange0, spi_bitexchange1, spi_bitexchange2, spi_bitexchange3, traced] <;>
    cases b <;> by_cases hh : priv.holdtime = 0 <;> simp [hh]

theorem dataLevels_waveformOps (priv : spi_bitbang_s) (b : Bool) :
    dataLevels (waveformOps priv b) = [b] := by
  unfold waveformOps call_exchange
  cases priv.exchange <;>
    simp only [spi_bitexchange0, spi_bitexchange1, spi_bitexchange2, spi_bitexchange3, traced] <;>
    cases b <;> by_cases hh : priv.holdtime = 0 <;> simp [hh, dataLevels]

theorem spi_period_bounds (f : Nat) (h1 : 1 ≤ f) (h2 : f < 2 ^ 32) :
    spi_period f * f ≤ 1000000000 + f / 2 ∧ 1000000000 + f / 2 < spi_period f * f + f
      ∧ spi_period f ≤ 1000000000 + f / 2 := by
  have hn : (1000000000 + (f >>> 1)) % 2 ^ 32 = 1000000000 + f / 2 := by
    rw [Nat.shiftRight_eq_div_pow]
    omega
  unfold spi_period
  rw [hn]
  refine ⟨Nat.div_mul_le_self _ _, ?_, Nat.div_le_self _ _⟩
  have hdm := Nat.div_add_mod (1000000000 + f / 2) f
  have hm := Nat.mod_lt (1000000000 + f / 2) (show f > 0 by omega)
  rw [Nat.mul_comm] at hdm
  omega

theorem spi_remaining_le (perbit pnsec : Nat) : spi_remaining perbit pnsec ≤ pnsec := by
  unfold spi_remaining
  split
  · exact le_trans (Nat.mod_le _ _) (Nat.sub_le _ _)
  · exact Nat.zero_le _

theorem spi_hold_bounds (r : Nat) (hr : r + 1 < 2 ^ 32 - 500) :
    2000 * spi_hold r ≤ r + 1001 ∧ r ≤ 2000 * spi_hold r + 998 := by
  unfold spi_hold
  rw [Nat.shiftRight_eq_div_pow]
  omega

theorem setfrequency_stores_hold (perbit : Nat) (priv : spi_bitbang_s) (f : Nat) (h1 : 0 < f) :
    (spi_setfrequency perbit priv f).state.holdtime
      = spi_hold (spi_remaining perbit (spi_period f)) := by
  unfold spi_setfrequency
  rw [if_neg (Nat.pos_iff_ne_zero.mp h1)]
  simp only
  split <;> rfl

theorem setfrequency_of_divisors (perbit : Nat) (priv : spi_bitbang_s) (f : Nat)
    (h1 : f ≠ 0)
    (h2 : spi_actual_period perbit (spi_hold (spi_remaining perbit (spi_period f))) ≠ 0) :
    spi_setfrequency perbit priv f
      = Outcome.returned
          (1000000000
            / spi_actual_period perbit (spi_hold (spi_remaining perbit (spi_period f))))
          { priv with holdtime := spi_hold (spi_remaining perbit (spi_period f)) } := by
  unfold spi_setfrequency
  rw [if_neg h1]
  simp only
  rw [if_neg h2]

theorem spi_actual_period_exact (perbit f : Nat) (h1 : 0 < f) (h2 : f < 2 ^ 32)
    (h3 : perbit < 2 ^ 32) :
    spi_actual_period perbit (spi_hold (spi_remaining perbit (spi_period f)))
      = 2000 * spi_hold (spi_remaining perbit (spi_period f)) + perbit := by
  obtain ⟨-, -, hp⟩ := spi_period_bounds f h1 h2
  have hr := spi_remaining_le perbit (spi_period f)
  obtain ⟨hb1, -⟩ := spi_hold_bounds (spi_remaining perbit (spi_period f)) (by omega)
  unfold spi_actual_period
  apply Nat.mod_eq_of_lt
  by_cases hc : spi_period f > perbit
  · have hrem : spi_remaining perbit (spi_period f) ≤ spi_period f - perbit := by
      unfold spi_remaining
      rw [if_pos hc]
      exact Nat.mod_le _ _
    omega
  · have hrem : spi_remaining perbit (spi_period f) = 0 := by
      unfold spi_remaining
      rw [if_neg hc]
    rw [hrem]
    have h0 : spi_hold 0 = 0 := by decide
    rw [h0]
    omega

theorem setfrequency_returns (perbit : Nat) (priv : spi_bitbang_s) (f : Nat) (h1 : 0 < f)
    (h2 : f < 2 ^ 32) (h3 : 0 < perbit) (h4 : perbit < 2 ^ 32) :
    spi_setfrequency perbit priv f
      = Outcome.returned
          (1000000000 / (2000 * spi_hold (spi_remaining perbit (spi_period f)) + perbit))
          { priv with holdtime := spi_hold (spi_remaining perbit (spi_period f)) } := by
  have hx := spi_actual_period_exact perbit f h1 h2 h4
  rw [setfrequency_of_divisors perbit priv f (by omega) (by rw [hx]; omega), hx]

theorem spi_period_antitone (f1 f2 : Nat) (h0 : 0 < f1) (h12 : f1 ≤ f2) (h2 : f2 < 2 ^ 32) :
    spi_period f2 ≤ spi_period f1 := by
  obtain ⟨hlo, -, -⟩ := spi_period_bounds f2 (by omega) h2
  have hn : (1000000000 + (f1 >>> 1)) % 2 ^ 32 = 1000000000 + f1 / 2 := by
    rw [Nat.shiftRight_eq_div_pow]
    omega
  have hgoal : spi_period f2 * f1 ≤ 1000000000 + f1 / 2 := by
    rcases Nat.eq_zero_or_pos (spi_period f2) with hz | hpos
    · rw [hz]
      omega
    · have hsplit : spi_period f2 * f2 = spi_period f2 * f1 + spi_period f2 * (f2 - f1) := by
        rw [← Nat.mul_add]
        congr 1
        omega
      have hge : f2 - f1 ≤ spi_period f2 * (f2 - f1) := Nat.le_mul_of_pos_left _ hpos
      omega
  show spi_period f2 ≤ ((1000000000 + (f1 >>> 1)) % 2 ^ 32) / f1
  rw [hn]
  exact (Nat.le_div_iff_mul_le h0).mpr hgoal

theorem spi_remaining_mono (perbit p2 p1 : Nat) (h : p2 ≤ p1) (hp : p1 < 2 ^ 32) :
    spi_remaining perbit p2 ≤ spi_remaining perbit p1 := by
  unfold spi_remaining
  split_ifs <;> omega

theorem spi_hold_mono (r2 r1 : Nat) (h : r2 ≤ r1) (hr : r1 + 1 < 2 ^ 32 - 500) :
    spi_hold r2 ≤ spi_hold r1 := by
  unfold spi_hold
  rw [Nat.shiftRight_eq_div_pow, Nat.shiftRight_eq_div_pow]
  omega

theorem spi_hold_antitone_freq (perbit f1 f2 : Nat) (h0 : 0 < f1) (h12 : f1 ≤ f2)
    (h2 : f2 < 2 ^ 32) :
    spi_hold (spi_remaining perbit (spi_period f2))
      ≤ spi_hold (spi_remaining perbit (spi_period f1)) := by
  obtain ⟨-, -, hp⟩ := spi_period_bounds f1 h0 (by omega)
  have hr := spi_remaining_le perbit (spi_period f1)
  exact spi_hold_mono _ _
    (spi_remaining_mono perbit _ _ (spi_period_antitone f1 f2 h0 h12 h2) (by omega)) (by omega)

theorem call_exchange_pow {σ : Type} (c : Cap σ) (priv : spi_bitbang_s) (x i : Nat) (s : σ) :
    call_exchange c priv (x &&& 2 ^ i) s = call_exchange c priv (x.testBit i).toNat s := by
  rw [← Nat.one_shiftLeft]
  exact call_exchange_bit c priv x i s

theorem loop_zero_bit {σ : Type} (c : Cap σ) (priv : spi_bitbang_s) (dataout fuel datain : Nat)
    (s : σ) : spi_exchange_loop c priv dataout fuel 0 datain s = some (datain, s) := by
  cases fuel <;> simp [spi_exchange_loop]

theorem loop_traced_log {σ : Type} (c : Cap σ) (priv : spi_bitbang_s) (dataout : Nat) :
    ∀ (j fuel datain : Nat) (st : σ × List Op), j < fuel →
      ∃ r, spi_exchange_loop (traced c) priv dataout fuel (2 ^ j) datain st = some r
        ∧ r.2.2 = st.2 ++ wordOps priv dataout (j + 1) := by
  intro j
  induction j with
  | zero =>
    intro fuel datain st hf
    obtain ⟨k, rfl⟩ : ∃ k, fuel = k + 1 := ⟨fuel - 1, by omega⟩
    have h1 := call_exchange_pow (traced c) priv dataout 0 st
    rw [pow_zero] at h1
    simp only [spi_exchange_loop, pow_zero, ne_eq, one_ne_zero, not_false_eq_true, if_true, h1]
    rw [show (1 : Nat) >>> 1 = 0 by decide, loop_zero_bit]
    refine ⟨_, rfl, ?_⟩
    simp only [call_exchange_traced_log, wordOps, List.append_nil]
  | succ j ih =>
    intro fuel datain st hf
    obtain ⟨k, rfl⟩ : ∃ k, fuel = k + 1 := ⟨fuel - 1, by omega⟩
    have hne : (2 : Nat) ^ (j + 1) ≠ 0 := by positivity
    have hsh : (2 : Nat) ^ (j + 1) >>> 1 = 2 ^ j := by
      rw [Nat.shiftRight_eq_div_pow, Nat.pow_succ]
      simp
    simp only [spi_exchange_loop, if_pos hne, hsh, call_exchange_pow]
    obtain ⟨r, hr, hlog⟩ := ih k
      ((datain <<< 1 % 65536 ||| (call_exchange (traced c) priv
        (dataout.testBit (j + 1)).toNat st).1) % 65536)
      (call_exchange (traced c) priv (dataout.testBit (j + 1)).toNat st).2 (by omega)
    refine ⟨r, hr, ?_⟩
    rw [hlog, call_exchange_traced_log]
    simp only [wordOps, List.append_assoc]

theorem varwidth_traced_log {σ : Type} (c : Cap σ) (priv : spi_bitbang_s) (dataout datain : Nat)
    (st : σ × List Op) (h1 : 1 ≤ priv.nbits) (h2 : priv.nbits ≤ 16) :
    ∃ r, spi_exchange_varwidth (traced c) priv dataout datain st = some r
      ∧ r.2.2 = st.2 ++ wordOps priv dataout priv.nbits := by
  have hmask : (1 <<< (priv.nbits - 1)) % 65536 = 2 ^ (priv.nbits - 1) := by
    rw [Nat.one_shiftLeft]
    apply Nat.mod_eq_of_lt
    calc 2 ^ (priv.nbits - 1) ≤ 2 ^ 15 := Nat.pow_le_pow_right (by norm_num) (by omega)
      _ < 65536 := by norm_num
  unfold spi_exchange_varwidth
  rw [if_neg (by omega)]
  simp only [hmask]
  obtain ⟨r, hr, hlog⟩ :=
    loop_traced_log c priv dataout (priv.nbits - 1) 16 datain st (by omega)
  refine ⟨r, hr, ?_⟩
  rw [hlog, Nat.sub_add_cancel h1]

theorem wordOps_eq_flatMap (priv : spi_bitbang_s) (dataout : Nat) :
    ∀ w : Nat, wordOps priv dataout w
      = (List.range w).flatMap (fun k => waveformOps priv (dataout.testBit (w - 1 - k))) := by
  intro w
  induction w with
  | zero => rfl
  | succ w ih =>
    rw [List.range_succ_eq_map, List.flatMap_cons, List.flatMap_map, wordOps, ih]
    congr 1
    apply List.flatMap_congr
    intro k hk
    have hk2 : k < w := List.mem_range.mp hk
    have e : w + 1 - 1 - k.succ = w - 1 - k := by omega
    rw [e]

theorem delays_append (a b : List Op) : delays (a ++ b) = delays a ++ delays b := by
  induction a with
  | nil => rfl
  | cons op ops ih => cases op <;> simp [delays, ih]

theorem delays_waveformOps (priv : spi_bitbang_s) (b : Bool) :
    delays (waveformOps priv b)
      = if priv.holdtime ≠ 0 then [priv.holdtime, priv.holdtime] else [] := by
  unfold waveformOps call_exchange
  cases priv.exchange <;>
    simp only [spi_bitexchange0, spi_bitexchange1, spi_bitexchange2, spi_bitexchange3, traced] <;>
    cases b <;> by_cases hh : priv.holdtime = 0 <;> simp [hh, delays]

theorem delays_wordOps_sum (priv : spi_bitbang_s) (dataout : Nat) :
    ∀ n : Nat, (delays (wordOps priv dataout n)).sum = n * 2 * priv.holdtime := by
  intro n
  induction n with
  | zero => simp [wordOps, delays]
  | succ n ih =>
    rw [wordOps, delays_append, List.sum_append, ih, delays_waveformOps]
    by_cases hh : priv.holdtime = 0
    · simp [hh]
    · simp only [ne_eq, hh, not_false_eq_true, if_true, List.sum_cons, List.sum_nil]
      ring

theorem spi_period_exact (f : Nat) (h1 : 1 ≤ f) (h2 : f < 2 ^ 32) :
    spi_period f = (1000000000 + f / 2) / f ∧ spi_period f ≤ 1000000000 := by
  have hn : (1000000000 + (f >>> 1)) % 2 ^ 32 = 1000000000 + f / 2 := by
    rw [Nat.shiftRight_eq_div_pow]
    omega
  have he : spi_period f = (1000000000 + f / 2) / f := by
    unfold spi_period
    rw [hn]
  refine ⟨he, ?_⟩
  rw [he]
  apply Nat.div_le_of_le_mul
  have hmul : f * 1000000000 = 1000000000 * f := Nat.mul_comm _ _
  omega

theorem spi_remaining_exact (perbit p : Nat) (hp : p < 2 ^ 32) :
    spi_remaining perbit p = (if p > perbit then p - perbit else 0) := by
  unfold spi_remaining
  split
  · exact Nat.mod_eq_of_lt (by omega)
  · rfl

theorem spi_hold_exact (r : Nat) (hr : r ≤ 1000000000) :
    spi_hold r = ((r + 1) / 2 + 500) / 1000 ∧ spi_hold r ≤ 500000 := by
  have he : spi_hold r = ((r + 1) / 2 + 500) / 1000 := by
    unfold spi_hold
    rw [Nat.shiftRight_eq_div_pow]
    have h1 : (r + 1) % 2 ^ 32 = r + 1 := Nat.mod_eq_of_lt (by omega)
    rw [h1]
    have h2 : ((r + 1) / 2 ^ 1 + 500) % 2 ^ 32 = (r + 1) / 2 + 500 := by
      rw [pow_one]
      exact Nat.mod_eq_of_lt (by omega)
    rw [h2]
  refine ⟨he, ?_⟩
  rw [he]
  omega

theorem call_exchange_level {σ : Type} (c : Cap σ) (priv : spi_bitbang_s) (d : Nat) (s : σ) :
    ∃ b : Bool, (call_exchange c priv d s).1 = b.toNat := by
  unfold call_exchange
  cases priv.exchange <;>
    simp only [spi_bitexchange0, spi_bitexchange1, spi_bitexchange2, spi_bitexchange3] <;>
    exact ⟨_, rfl⟩

theorem varwidth8_eq_fixed {σ : Type} (c : Cap σ) (priv : spi_bitbang_s) (dataout : Nat)
    (s : σ) (h8 : priv.nbits = 8) :
    spi_exchange_varwidth c priv dataout 0 s = some (spi_exchange c priv dataout s) := by
  unfold spi_exchange_varwidth
  rw [h8, if_neg (by decide)]
  simp only [spi_exchange_loop, spi_exchange, Nat.reduceSub, Nat.reduceShiftLeft,
    Nat.reduceMod, Nat.reduceShiftRight, ne_eq, OfNat.ofNat_ne_zero, not_false_eq_true,
    if_true, one_ne_zero, OfNat.zero_ne_ofNat, not_true_eq_false, if_false]
  have h7 := call_exchange_level c priv (dataout &&& 128) s
  generalize call_exchange c priv (dataout &&& 128) s = r7 at h7 ⊢
  obtain ⟨b7, e7⟩ := h7
  rw [e7]
  have h6 := call_exchange_level c priv (dataout &&& 64) r7.2
  generalize call_exchange c priv (dataout &&& 64) r7.2 = r6 at h6 ⊢
  obtain ⟨b6, e6⟩ := h6
  rw [e6]
  have h5 := call_exchange_level c priv (dataout &&& 32) r6.2
  generalize call_exchange c priv (dataout &&& 32) r6.2 = r5 at h5 ⊢
  obtain ⟨b5, e5⟩ := h5
  rw [e5]
  have h4 := call_exchange_level c priv (dataout &&& 16) r5.2
  generalize call_exchange c priv (dataout &&& 16) r5.2 = r4 at h4 ⊢
  obtain ⟨b4, e4⟩ := h4
  rw [e4]
  have h3 := call_exchange_level c priv (dataout &&& 8) r4.2
  generalize call_exchange c priv (dataout &&& 8) r4.2 = r3 at h3 ⊢
  obtain ⟨b3, e3⟩ := h3
  rw [e3]
  have h2 := call_exchange_level c priv (dataout &&& 4) r3.2
  generalize call_exchange c priv (dataout &&& 4) r3.2 = r2 at h2 ⊢
  obtain ⟨b2, e2⟩ := h2
  rw [e2]
  have h1 := call_exchange_level c priv (dataout &&& 2) r2.2
  generalize call_exchange c priv (dataout &&& 2) r2.2 = r1 at h1 ⊢
  obtain ⟨b1, e1⟩ := h1
  rw [e1]
  have h0 := call_exchange_level c priv (dataout &&& 1) r1.2
  generalize call_exchange c priv (dataout &&& 1) r1.2 = r0 at h0 ⊢
  obtain ⟨b0, e0⟩ := h0
  rw [e0]
  cases b7 <;> cases b6 <;> cases b5 <;> cases b4 <;> cases b3 <;> cases b2 <;> cases b1 <;>
    cases b0 <;> rfl

theorem call_exchange_rest (priv : spi_bitbang_s) (d : Nat) (s : Pins) :
    (call_exchange pins priv d s).2.sck = restLevel priv.exchange := by
  unfold call_exchange
  cases priv.exchange <;>
    simp only [spi_bitexchange0, spi_bitexchange1, spi_bitexchange2, spi_bitexchange3, pins,
      restLevel] <;>
    by_cases hh : priv.holdtime = 0 <;> simp [hh]

theorem spi_exchange_rest (priv : spi_bitbang_s) (d : Nat) (s : Pins) :
    (spi_exchange pins priv d s).2.sck = restLevel priv.exchange := by
  simp only [spi_exchange]
  exact call_exchange_rest priv _ _

theorem loop_rest (priv : spi_bitbang_s) (dataout : Nat) :
    ∀ (fuel bit datain : Nat) (s : Pins) (r : Nat × Pins),
      s.sck = restLevel priv.exchange →
      spi_exchange_loop pins priv dataout fuel bit datain s = some r →
      r.2.sck = restLevel priv.exchange := by
  intro fuel
  induction fuel with
  | zero =>
    intro bit datain s r hs hr
    by_cases hb : bit = 0
    · simp [spi_exchange_loop, hb] at hr
      rw [← hr]
      exact hs
    · simp [spi_exchange_loop, hb] at hr
  | succ fuel ih =>
    intro bit datain s r hs hr
    by_cases hb : bit = 0
    · simp [spi_exchange_loop, hb] at hr
      rw [← hr]
      exact hs
    · simp only [spi_exchange_loop, ne_eq, hb, not_false_eq_true, if_true] at hr
      exact ih _ _ _ r (call_exchange_rest priv _ _) hr

theorem step_invariant (perbit : Nat) (e : bitexchange_t) (op : BusOp)
    (m : spi_bitbang_s × Pins) (he : m.1.exchange = e) (hs : m.2.sck = restLevel e) :
    (step perbit pins op m).state.1.exchange = e
      ∧ (step perbit pins op m).state.2.sck = restLevel e := by
  cases op with
  | setfrequency f =>
    unfold step spi_setfrequency
    simp only
    split_ifs <;> exact ⟨he, hs⟩
  | bitexchange d =>
    refine ⟨he, ?_⟩
    rw [← he]
    exact call_exchange_rest m.1 d m.2
  | exchange d =>
    refine ⟨he, ?_⟩
    rw [← he]
    exact spi_exchange_rest m.1 d m.2
  | exchange_varwidth d a =>
    unfold step
    simp only
    cases hr : spi_exchange_varwidth pins m.1 d a m.2 with
    | none => exact ⟨he, hs⟩
    | some r =>
      refine ⟨he, ?_⟩
      unfold spi_exchange_varwidth at hr
      split_ifs at hr
      rw [← he] at hs ⊢
      exact loop_rest m.1 d _ _ _ _ r hs hr

theorem run_invariant (perbit : Nat) (e : bitexchange_t) :
    ∀ (ops : List BusOp) (m : spi_bitbang_s × Pins), m.1.exchange = e →
      m.2.sck = restLevel e →
      (run perbit pins ops m).1.exchange = e ∧ (run perbit pins ops m).2.sck = restLevel e := by
  intro ops
  induction ops with
  | nil =>
    intro m he hs
    exact ⟨he, hs⟩
  | cons op ops ih =>
    intro m he hs
    have hstep := step_invariant perbit e op m he hs
    unfold run
    cases hr : step perbit pins op m with
    | returned ret m1 =>
      rw [hr] at hstep
      exact ih m1 hstep.1 hstep.2
    | halted m1 =>
      rw [hr] at hstep
      exact hstep

theorem setmode_enabled_state (cfg : Config) (priv : spi_bitbang_s) (mode : Nat) (s : Pins)
    (hm : modeEnabled cfg mode = true) :
    (spi_setmode cfg pins priv mode s).state.1.exchange = modeExchange mode
      ∧ (spi_setmode cfg pins priv mode s).state.2.sck = restLevel (modeExchange mode)
      ∧ restLevel (modeExchange mode) = idleLevel mode := by
  rcases cfg with ⟨d0, d1, d2, d3⟩
  match mode with
  | 0 =>
    have h0 : d0 = false := by simpa [modeEnabled] using hm
    subst h0
    exact ⟨rfl, rfl, rfl⟩
  | 1 =>
    have h1 : d1 = false := by simpa [modeEnabled] using hm
    subst h1
    exact ⟨rfl, rfl, rfl⟩
  | 2 =>
    have h2 : d2 = false := by simpa [modeEnabled] using hm
    subst h2
    exact ⟨rfl, rfl, rfl⟩
  | 3 =>
    have h3 : d3 = false := by simpa [modeEnabled] using hm
    subst h3
    exact ⟨rfl, rfl, rfl⟩
  | n + 4 => simp [modeEnabled] at hm

theorem clockLevels_waveformOps (priv : spi_bitbang_s) (b : Bool) :
    clockLevels (waveformOps priv b) = [!restLevel priv.exchange, restLevel priv.exchange] := by
  rcases priv with ⟨h, e, n⟩
  unfold waveformOps call_exchange
  cases e <;>
    simp only [spi_bitexchange0, spi_bitexchange1, spi_bitexchange2, spi_bitexchange3, traced] <;>
    cases b <;> by_cases hh : h = 0 <;> simp [hh, clockLevels, restLevel]

/-! ## Word exchange: round trip and bit order -/

/-- C1: against a loopback capability the fixed-width word exchange returns
its 8-bit argument unchanged, in every mode and with every hold time. -/
theorem spi_exchange_loopback (priv : spi_bitbang_s) (x : Nat) (hx : x < 256) (s : Bool) :
    (spi_exchange loopback priv x s).1 = x := by
  simp only [spi_exchange, call_exchange_loopback]
  interval_cases x <;> rfl

/-- Witness of C1: the word 0xA5 in mode 1 with a hold time of 3. -/
theorem spi_exchange_loopback_witness :
    0xA5 < 256 ∧ (spi_exchange loopback ⟨3, bitexchange_t.bitexchange1, 8⟩ 0xA5 false).1 = 0xA5 :=
  ⟨by decide, spi_exchange_loopback _ 0xA5 (by decide) false⟩

/-- C2: when the slave presents the levels `s0 .. s7` at the eight samples,
the fixed-width word exchange returns `s0*128 + s1*64 + ... + s7`, in every
mode; the result is below 256 and is the same for every `dataout`. -/
theorem spi_exchange_scripted (priv : spi_bitbang_s) (dataout : Nat)
    (s0 s1 s2 s3 s4 s5 s6 s7 : Bool) (rest : List Bool) :
    (spi_exchange scripted priv dataout (s0 :: s1 :: s2 :: s3 :: s4 :: s5 :: s6 :: s7 :: rest)).1
        = s0.toNat * 128 + s1.toNat * 64 + s2.toNat * 32 + s3.toNat * 16
          + s4.toNat * 8 + s5.toNat * 4 + s6.toNat * 2 + s7.toNat * 1
      ∧ (spi_exchange scripted priv dataout
          (s0 :: s1 :: s2 :: s3 :: s4 :: s5 :: s6 :: s7 :: rest)).1 < 256
      ∧ ∀ other : Nat,
          (spi_exchange scripted priv other
            (s0 :: s1 :: s2 :: s3 :: s4 :: s5 :: s6 :: s7 :: rest)).1
          = (spi_exchange scripted priv dataout
            (s0 :: s1 :: s2 :: s3 :: s4 :: s5 :: s6 :: s7 :: rest)).1 := by
  simp only [spi_exchange, call_exchange_scripted, List.headD_cons, List.tail_cons]
  refine ⟨?_, ?_, fun _ => trivial⟩ <;>
    cases s0 <;> cases s1 <;> cases s2 <;> cases s3 <;> cases s4 <;> cases s5 <;>
    cases s6 <;> cases s7 <;> decide

/-- C3: the fixed-width word exchange invokes the active bit exchange exactly
eight times; the i-th invocation (i = 0..7) drives the data-out line once, to
the level of bit `7 - i` of `dataout`; bits 8 and above of `dataout` change
nothing of what the call does. -/
theorem spi_exchange_invocations {σ : Type} (c : Cap σ) (priv : spi_bitbang_s) (dataout : Nat)
    (s : σ) (log : List Op) :
    (spi_exchange (traced c) priv dataout (s, log)).2.2
        = log ++ (waveformOps priv (dataout.testBit 7) ++ waveformOps priv (dataout.testBit 6)
          ++ waveformOps priv (dataout.testBit 5) ++ waveformOps priv (dataout.testBit 4)
          ++ waveformOps priv (dataout.testBit 3) ++ waveformOps priv (dataout.testBit 2)
          ++ waveformOps priv (dataout.testBit 1) ++ waveformOps priv (dataout.testBit 0))
      ∧ (∀ b : Bool, dataLevels (waveformOps priv b) = [b])
      ∧ spi_exchange (traced c) priv dataout (s, log)
          = spi_exchange (traced c) priv (dataout % 256) (s, log) := by
  refine ⟨?_, dataLevels_waveformOps priv, ?_⟩
  · simp only [spi_exchange, call_exchange_bit, call_exchange_traced_log, List.append_assoc]
  · have h256 : (256 : Nat) = 2 ^ 8 := by norm_num
    simp only [spi_exchange, call_exchange_bit]
    rw [h256]
    simp only [Nat.testBit_mod_two_pow]
    simp

/-! ## Bit-exchange waveforms -/

/-- C4: the mode 0 bit exchange requests setData(d != 0), setClock(high),
sampleData, delay(h), setClock(low), delay(h), without the two delays when the
hold time h is 0, and returns the level sampled after the rising edge, 0 or 1.
After `spi_setmode` selected mode 0, exchanging the bit value 1 against a
loopback board returns 1, the clock is written low, high, low, and the data
line is set before the rising edge. -/
theorem spi_bitexchange0_waveform {σ : Type} (c : Cap σ) (priv : spi_bitbang_s) (d : Nat)
    (s : σ) (log : List Op) :
    (spi_bitexchange0 (traced c) priv d (s, log)).2.2
        = log ++ (if priv.holdtime ≠ 0 then
            [Op.setData (decide (d ≠ 0)), Op.setClock true, Op.sampleData,
              Op.delay priv.holdtime, Op.setClock false, Op.delay priv.holdtime]
          else
            [Op.setData (decide (d ≠ 0)), Op.setClock true, Op.sampleData, Op.setClock false])
      ∧ (spi_bitexchange0 (traced c) priv d (s, log)).1
          = (c.sampleData (c.setClock true (c.setData (decide (d ≠ 0)) s))).1.toNat
      ∧ (spi_bitexchange0 (traced c) priv d (s, log)).1 ≤ 1
      ∧ (∀ b : Bool,
          (call_exchange (traced loopback)
              (spi_setmode allModes (traced loopback) priv 0 (b, [])).state.1 1
              (spi_setmode allModes (traced loopback) priv 0 (b, [])).state.2).1 = 1
          ∧ clockLevels ((call_exchange (traced loopback)
              (spi_setmode allModes (traced loopback) priv 0 (b, [])).state.1 1
              (spi_setmode allModes (traced loopback) priv 0 (b, [])).state.2).2.2)
            = [false, true, false]
          ∧ ((call_exchange (traced loopback)
              (spi_setmode allModes (traced loopback) priv 0 (b, [])).state.1 1
              (spi_setmode allModes (traced loopback) priv 0 (b, [])).state.2).2.2).take 3
            = [Op.setClock false, Op.setData true, Op.setClock true]) := by
  refine ⟨?_, ?_, ?_, ?_⟩
  · by_cases hd : d = 0 <;> by_cases hh : priv.holdtime = 0 <;>
      simp [spi_bitexchange0, traced, hd, hh]
  · by_cases hd : d = 0 <;> simp [spi_bitexchange0, traced, hd]
  · simp only [spi_bitexchange0]
    exact Bool.toNat_le _
  · intro b
    by_cases hh : priv.holdtime = 0 <;>
      simp [spi_setmode, allModes, Outcome.state, call_exchange, spi_bitexchange0, traced,
        loopback, clockLevels, hh]

/-- C5: the mode 1 bit exchange requests setClock(high), setData(d != 0),
delay(h), setClock(low), sampleData, delay(h), without the two delays when the
hold time h is 0, and returns the level sampled after the falling edge, 0 or
1. -/
theorem spi_bitexchange1_waveform {σ : Type} (c : Cap σ) (priv : spi_bitbang_s) (d : Nat)
    (s : σ) (log : List Op) :
    (spi_bitexchange1 (traced c) priv d (s, log)).2.2
        = log ++ (if priv.holdtime ≠ 0 then
            [Op.setClock true, Op.setData (decide (d ≠ 0)), Op.delay priv.holdtime,
              Op.setClock false, Op.sampleData, Op.delay priv.holdtime]
          else
            [Op.setClock true, Op.setData (decide (d ≠ 0)), Op.setClock false, Op.sampleData])
      ∧ (spi_bitexchange1 (traced c) priv d (s, log)).1
          = (c.sampleData (c.setClock false
              (if priv.holdtime ≠ 0 then
                c.delay priv.holdtime (c.setData (decide (d ≠ 0)) (c.setClock true s))
              else c.setData (decide (d ≠ 0)) (c.setClock true s)))).1.toNat
      ∧ (spi_bitexchange1 (traced c) priv d (s, log)).1 ≤ 1 := by
  refine ⟨?_, ?_, ?_⟩
  · by_cases hd : d = 0 <;> by_cases hh : priv.holdtime = 0 <;>
      simp [spi_bitexchange1, traced, hd, hh]
  · by_cases hd : d = 0 <;> by_cases hh : priv.holdtime = 0 <;>
      simp [spi_bitexchange1, traced, hd, hh]
  · simp only [spi_bitexchange1]
    exact Bool.toNat_le _

/-- C6: for every data argument, hold time and script of slave levels, the
operations of the mode 2 bit exchange are those of mode 0 with every clock
level inverted, the operations of mode 3 are those of mode 1 with every clock
level inverted, and the returned values are equal. -/
theorem spi_bitexchange_inverted (priv : spi_bitbang_s) (d : Nat) (script : List Bool) :
    (spi_bitexchange2 (traced scripted) priv d (script, [])).2.2
        = ((spi_bitexchange0 (traced scripted) priv d (script, [])).2.2).map invertClock
      ∧ (spi_bitexchange3 (traced scripted) priv d (script, [])).2.2
        = ((spi_bitexchange1 (traced scripted) priv d (script, [])).2.2).map invertClock
      ∧ (spi_bitexchange2 (traced scripted) priv d (script, [])).1
        = (spi_bitexchange0 (traced scripted) priv d (script, [])).1
      ∧ (spi_bitexchange3 (traced scripted) priv d (script, [])).1
        = (spi_bitexchange1 (traced scripted) priv d (script, [])).1 := by
  refine ⟨?_, ?_, ?_, ?_⟩ <;>
    by_cases hd : d = 0 <;> by_cases hh : priv.holdtime = 0 <;>
    simp [spi_bitexchange0, spi_bitexchange1, spi_bitexchange2, spi_bitexchange3, traced,
      scripted, invertClock, hd, hh]

/-! ## Mode selector -/

/-- C7: with all modes enabled, `spi_setmode` requests exactly one pin
operation, writing the clock low for modes 0 and 1 and high for modes 2 and 3,
and makes the bit exchange of the requested mode the active one. -/
theorem spi_setmode_selects {σ : Type} (c : Cap σ) (priv : spi_bitbang_s) (s : σ)
    (log : List Op) :
    (spi_setmode allModes (traced c) priv 0 (s, log)
        = Outcome.returned () ({ priv with exchange := bitexchange_t.bitexchange0 },
            (c.setClock false s, log ++ [Op.setClock false]))
      ∧ spi_setmode allModes (traced c) priv 1 (s, log)
        = Outcome.returned () ({ priv with exchange := bitexchange_t.bitexchange1 },
            (c.setClock false s, log ++ [Op.setClock false]))
      ∧ spi_setmode allModes (traced c) priv 2 (s, log)
        = Outcome.returned () ({ priv with exchange := bitexchange_t.bitexchange2 },
            (c.setClock true s, log ++ [Op.setClock true]))
      ∧ spi_setmode allModes (traced c) priv 3 (s, log)
        = Outcome.returned () ({ priv with exchange := bitexchange_t.bitexchange3 },
            (c.setClock true s, log ++ [Op.setClock true])))
      ∧ (∀ (d : Nat) (st : σ × List Op),
          call_exchange (traced c) (spi_setmode allModes (traced c) priv 0 (s, log)).state.1 d st
            = spi_bitexchange0 (traced c)
                (spi_setmode allModes (traced c) priv 0 (s, log)).state.1 d st
          ∧ call_exchange (traced c) (spi_setmode allModes (traced c) priv 1 (s, log)).state.1 d st
            = spi_bitexchange1 (traced c)
                (spi_setmode allModes (traced c) priv 1 (s, log)).state.1 d st
          ∧ call_exchange (traced c) (spi_setmode allModes (traced c) priv 2 (s, log)).state.1 d st
            = spi_bitexchange2 (traced c)
                (spi_setmode allModes (traced c) priv 2 (s, log)).state.1 d st
          ∧ call_exchange (traced c) (spi_setmode allModes (traced c) priv 3 (s, log)).state.1 d st
            = spi_bitexchange3 (traced c)
                (spi_setmode allModes (traced c) priv 3 (s, log)).state.1 d st) := by
  refine ⟨⟨rfl, rfl, rfl, rfl⟩, fun d st => ⟨rfl, rfl, rfl, rfl⟩⟩

/-- C8: `spi_setmode` called with a mode outside 0..3 or with a mode that is
compiled out halts, leaving the bus context and the board (its log of pin
operations included) exactly as they were; called with an enabled mode it
returns. -/
theorem spi_setmode_fatal {σ : Type} (cfg : Config) (c : Cap σ) (priv : spi_bitbang_s)
    (mode : Nat) (s : σ) (log : List Op) :
    spi_setmode cfg (traced c) priv mode (s, log)
      = if modeEnabled cfg mode then
          Outcome.returned () (spi_setmode cfg (traced c) priv mode (s, log)).state
        else Outcome.halted (priv, (s, log)) := by
  rcases cfg with ⟨d0, d1, d2, d3⟩
  match mode with
  | 0 => cases d0 <;> simp [spi_setmode, modeEnabled, DEBUGPANIC, Outcome.state]
  | 1 => cases d1 <;> simp [spi_setmode, modeEnabled, DEBUGPANIC, Outcome.state]
  | 2 => cases d2 <;> simp [spi_setmode, modeEnabled, DEBUGPANIC, Outcome.state]
  | 3 => cases d3 <;> simp [spi_setmode, modeEnabled, DEBUGPANIC, Outcome.state]
  | n + 4 => simp [spi_setmode, modeEnabled, DEBUGPANIC]

/-! ## Frequency calculator -/

/-- C9: for every requested frequency f with 1 <= f <= 2^32 - 1 the full bit
period p computed at line 172 is an integer nearest to 10^9 / f:
2 * |p * f - 10^9| <= f. -/
theorem spi_period_nearest (f : Nat) (h1 : 1 ≤ f) (h2 : f ≤ 2 ^ 32 - 1) :
    2 * |((spi_period f : Nat) : Int) * (f : Int) - 10 ^ 9| ≤ (f : Int) := by
  obtain ⟨hlo, hhi, -⟩ := spi_period_bounds f h1 (by omega)
  have hc : ((spi_period f : Nat) : Int) * (f : Int) = ((spi_period f * f : Nat) : Int) := by
    push_cast
    rfl
  rw [hc]
  generalize spi_period f * f = q at hlo hhi
  rcases abs_cases ((q : Int) - 10 ^ 9) with ⟨h, _⟩ | ⟨h, _⟩ <;> rw [h] <;> omega

/-- Witness of C9 at 400 kHz. -/
theorem spi_period_nearest_witness :
    1 ≤ 400000 ∧ 400000 ≤ 2 ^ 32 - 1
      ∧ 2 * |((spi_period 400000 : Nat) : Int) * ((400000 : Nat) : Int) - 10 ^ 9|
          ≤ ((400000 : Nat) : Int) :=
  ⟨by decide, by decide, spi_period_nearest 400000 (by decide) (by decide)⟩

/-- C10, as stated, fails: with a per-bit overhead of 100 ns and a request of
909918 Hz the period is 1099 ns, the remaining time r is 999 ns and the stored
hold time h is 1, so |2000 * h - r| = 1001 > 1000 (the nearest integer to
999 / 2000 is 0). -/
theorem spi_hold_not_nearest :
    spi_remaining 100 (spi_period 909918) = 999
      ∧ (spi_setfrequency 100 ⟨0, bitexchange_t.bitexchange0, 8⟩ 909918).state.holdtime = 1
      ∧ ¬ (|2000 * (((spi_setfrequency 100 ⟨0, bitexchange_t.bitexchange0, 8⟩
              909918).state.holdtime : Nat) : Int)
            - ((spi_remaining 100 (spi_period 909918) : Nat) : Int)| ≤ 1000) := by
  have hr : spi_remaining 100 (spi_period 909918) = 999 := by decide
  have hh : (spi_setfrequency 100 ⟨0, bitexchange_t.bitexchange0, 8⟩ 909918).state.holdtime
      = 1 := by decide
  refine ⟨hr, hh, ?_⟩
  rw [hr, hh]
  norm_num

/-- C10, amended: for every requested frequency f > 0 (a 32-bit value) and
every per-bit overhead, with r the remaining time after the overhead is
subtracted from the rounded period (clamped at 0), the stored hold time h is
the half of r rounded up to a whole nanosecond and then rounded to the nearest
microsecond, so that |2000 * h - r| <= 1001. -/
theorem spi_hold_rounding (perbit : Nat) (priv : spi_bitbang_s) (f : Nat) (h1 : 0 < f)
    (h2 : f < 2 ^ 32) :
    |2000 * (((spi_setfrequency perbit priv f).state.holdtime : Nat) : Int)
        - ((spi_remaining perbit (spi_period f) : Nat) : Int)| ≤ 1001 := by
  rw [setfrequency_stores_hold perbit priv f h1]
  obtain ⟨-, -, hp⟩ := spi_period_bounds f h1 h2
  have hr := spi_remaining_le perbit (spi_period f)
  obtain ⟨hb1, hb2⟩ := spi_hold_bounds (spi_remaining perbit (spi_period f)) (by omega)
  rw [abs_le]
  constructor <;> omega

/-- Witness of the amended C10 at the request where the original bound
fails. -/
theorem spi_hold_rounding_witness :
    0 < 909918 ∧ 909918 < 2 ^ 32
      ∧ |2000 * (((spi_setfrequency 100 ⟨0, bitexchange_t.bitexchange0, 8⟩
              909918).state.holdtime : Nat) : Int)
          - ((spi_remaining 100 (spi_period 909918) : Nat) : Int)| ≤ 1001 :=
  ⟨by decide, by decide, spi_hold_rounding 100 _ 909918 (by decide) (by decide)⟩

/-- C13: with a per-bit overhead of 100 ns, `spi_setfrequency(400000)`
computes a period of 2500 ns and a remaining time of 2400 ns, stores the hold
time 1 and returns 476190. -/
theorem spi_setfrequency_400kHz (priv : spi_bitbang_s) :
    spi_period 400000 = 2500
      ∧ spi_remaining 100 (spi_period 400000) = 2400
      ∧ spi_setfrequency 100 priv 400000
          = Outcome.returned 476190 { priv with holdtime := 1 } := by
  refine ⟨by decide, by decide, ?_⟩
  exact setfrequency_of_divisors 100 priv _ (by decide) (by decide)

/-- C14: with a per-bit overhead of 100 ns, `spi_setfrequency(20000000)`
computes a period of 50 ns, clamps the remaining time to 0, stores the hold
time 0 and returns 10000000. -/
theorem spi_setfrequency_20MHz (priv : spi_bitbang_s) :
    spi_period 20000000 = 50
      ∧ spi_remaining 100 (spi_period 20000000) = 0
      ∧ spi_setfrequency 100 priv 20000000
          = Outcome.returned 10000000 { priv with holdtime := 0 } := by
  refine ⟨by decide, by decide, ?_⟩
  exact setfrequency_of_divisors 100 priv _ (by decide) (by decide)

/-- C11: for every requested frequency f > 0 and overhead > 0 (32-bit
values) the value `spi_setfrequency` returns is floor(10^9 / (2000 * h +
overhead)), h being the hold time the same call stored; it is at most the
exact rational 10^9 / (2000 * h + overhead). -/
theorem spi_setfrequency_actual (perbit : Nat) (priv : spi_bitbang_s) (f : Nat) (h1 : 0 < f)
    (h2 : f < 2 ^ 32) (h3 : 0 < perbit) (h4 : perbit < 2 ^ 32) :
    (spi_setfrequency perbit priv f).ret?
        = some (1000000000 / (2000 * (spi_setfrequency perbit priv f).state.holdtime + perbit))
      ∧ (((1000000000 / (2000 * (spi_setfrequency perbit priv f).state.holdtime + perbit)
            : Nat) : ℚ)
          ≤ (10 ^ 9 : ℚ)
            / (2000 * ((spi_setfrequency perbit priv f).state.holdtime : ℚ) + (perbit : ℚ))) := by
  constructor
  · rw [setfrequency_returns perbit priv f h1 h2 h3 h4]
    rfl
  · have hc := @Nat.cast_div_le ℚ _ 1000000000
      (2000 * (spi_setfrequency perbit priv f).state.holdtime + perbit)
    push_cast at hc
    norm_num at hc ⊢
    exact hc

/-- Witness of C11 at 400 kHz with an overhead of 100 ns. -/
theorem spi_setfrequency_actual_witness :
    0 < 400000 ∧ 400000 < 2 ^ 32 ∧ 0 < 100 ∧ 100 < 2 ^ 32
      ∧ (spi_setfrequency 100 ⟨0, bitexchange_t.bitexchange0, 8⟩ 400000).ret?
        = some (1000000000 / (2000 * (spi_setfrequency 100 ⟨0, bitexchange_t.bitexchange0, 8⟩
            400000).state.holdtime + 100)) :=
  ⟨by decide, by decide, by decide, by decide,
    (spi_setfrequency_actual 100 _ 400000 (by decide) (by decide) (by decide) (by decide)).1⟩

/-- C12: for a fixed overhead > 0 and requests 0 < f1 <= f2 (32-bit values),
the hold time stored for f1 is at least the hold time stored for f2, and the
frequency returned for f1 is at most the frequency returned for f2. -/
theorem spi_setfrequency_monotone (perbit : Nat) (priv1 priv2 : spi_bitbang_s) (f1 f2 : Nat)
    (h0 : 0 < f1) (h12 : f1 ≤ f2) (h2 : f2 < 2 ^ 32) (h3 : 0 < perbit)
    (h4 : perbit < 2 ^ 32) :
    (spi_setfrequency perbit priv2 f2).state.holdtime
        ≤ (spi_setfrequency perbit priv1 f1).state.holdtime
      ∧ ∃ r1 r2 : Nat, (spi_setfrequency perbit priv1 f1).ret? = some r1
          ∧ (spi_setfrequency perbit priv2 f2).ret? = some r2 ∧ r1 ≤ r2 := by
  have hh := spi_hold_antitone_freq perbit f1 f2 h0 h12 h2
  rw [setfrequency_returns perbit priv1 f1 h0 (by omega) h3 h4,
    setfrequency_returns perbit priv2 f2 (by omega) h2 h3 h4]
  refine ⟨hh, _, _, rfl, rfl, ?_⟩
  exact Nat.div_le_div_left (by omega) (by omega)

/-- Witness of C12: 400 kHz against 20 MHz with an overhead of 100 ns. -/
theorem spi_setfrequency_monotone_witness :
    0 < 400000 ∧ 400000 ≤ 20000000 ∧ 20000000 < 2 ^ 32 ∧ 0 < 100 ∧ 100 < 2 ^ 32
      ∧ (spi_setfrequency 100 ⟨0, bitexchange_t.bitexchange0, 8⟩ 20000000).state.holdtime
        ≤ (spi_setfrequency 100 ⟨0, bitexchange_t.bitexchange0, 8⟩ 400000).state.holdtime :=
  ⟨by decide, by decide, by decide, by decide, by decide,
    (spi_setfrequency_monotone 100 _ _ 400000 20000000 (by decide) (by decide) (by decide)
      (by decide) (by decide)).1⟩

/-- C15: for every requested frequency f > 0 whose rounded period does not
exceed the overhead (overhead > 0, 32-bit values), the call returns, the
remaining time is 0 (the subtraction is not taken, nothing wraps), the stored
hold time is 0 and the returned frequency is floor(10^9 / overhead), which no
request exceeds. -/
theorem spi_setfrequency_clamped (perbit : Nat) (priv : spi_bitbang_s) (f : Nat) (h1 : 0 < f)
    (h2 : f < 2 ^ 32) (h3 : 0 < perbit) (h4 : perbit < 2 ^ 32)
    (h5 : spi_period f ≤ perbit) :
    spi_remaining perbit (spi_period f) = 0
      ∧ spi_setfrequency perbit priv f
          = Outcome.returned (1000000000 / perbit) { priv with holdtime := 0 }
      ∧ ∀ (other : spi_bitbang_s) (g : Nat), 0 < g → g < 2 ^ 32 →
          ∃ r : Nat, (spi_setfrequency perbit other g).ret? = some r
            ∧ r ≤ 1000000000 / perbit := by
  have hrem : spi_remaining perbit (spi_period f) = 0 := by
    unfold spi_remaining
    rw [if_neg (by omega)]
  have h0 : spi_hold 0 = 0 := by decide
  refine ⟨hrem, ?_, ?_⟩
  · rw [setfrequency_returns perbit priv f h1 h2 h3 h4, hrem, h0, Nat.mul_zero, Nat.zero_add]
  · intro other g hg1 hg2
    rw [setfrequency_returns perbit other g hg1 hg2 h3 h4]
    exact ⟨_, rfl, Nat.div_le_div_left (by omega) h3⟩

/-- Witness of C15: 20 MHz with an overhead of 100 ns (period 50 ns). -/
theorem spi_setfrequency_clamped_witness :
    0 < 20000000 ∧ 20000000 < 2 ^ 32 ∧ 0 < 100 ∧ 100 < 2 ^ 32 ∧ spi_period 20000000 ≤ 100
      ∧ spi_remaining 100 (spi_period 20000000) = 0 :=
  ⟨by decide, by decide, by decide, by decide, by decide,
    (spi_setfrequency_clamped 100 ⟨0, bitexchange_t.bitexchange0, 8⟩ 20000000 (by decide)
      (by decide) (by decide) (by decide) (by decide)).1⟩

/-- C16: for every requested frequency f > 0 and overhead > 0 (32-bit values)
both divisors of `spi_setfrequency` are non-zero and the call returns a
frequency and stores a hold time; for f = 0 the first division has a zero
divisor and the call yields no result. -/
theorem spi_setfrequency_total (perbit : Nat) (priv : spi_bitbang_s) (f : Nat) (h1 : 0 < f)
    (h2 : f < 2 ^ 32) (h3 : 0 < perbit) (h4 : perbit < 2 ^ 32) :
    f ≠ 0
      ∧ spi_actual_period perbit (spi_hold (spi_remaining perbit (spi_period f))) ≠ 0
      ∧ (∃ ret hold : Nat,
          spi_setfrequency perbit priv f = Outcome.returned ret { priv with holdtime := hold })
      ∧ spi_setfrequency perbit priv 0 = Outcome.halted priv
      ∧ (spi_setfrequency perbit priv 0).ret? = none := by
  refine ⟨by omega, ?_, ⟨_, _, setfrequency_returns perbit priv f h1 h2 h3 h4⟩, rfl, rfl⟩
  rw [spi_actual_period_exact perbit f h1 h2 h4]
  omega

/-- Witness of C16 at 400 kHz with an overhead of 100 ns. -/
theorem spi_setfrequency_total_witness :
    0 < 400000 ∧ 400000 < 2 ^ 32 ∧ 0 < 100 ∧ 100 < 2 ^ 32
      ∧ spi_actual_period 100 (spi_hold (spi_remaining 100 (spi_period 400000))) ≠ 0 :=
  ⟨by decide, by decide, by decide, by decide,
    (spi_setfrequency_total 100 ⟨0, bitexchange_t.bitexchange0, 8⟩ 400000 (by decide)
      (by decide) (by decide) (by decide)).2.1⟩

/-- C23: for every requested frequency f with 1 <= f <= 2^32 - 1 and every
per-bit overhead below 2^32 - 10^9, no intermediate value of
`spi_setfrequency` wraps: 10^9 + (f >> 1) < 2^32, the stored hold time is at
most 500000 and 2000 * holdtime + overhead < 2^32; the 32-bit computation
gives the same outcome (hold time and returned frequency) as the formula over
unbounded integers. -/
theorem spi_setfrequency_no_wrap (perbit : Nat) (priv : spi_bitbang_s) (f : Nat) (h1 : 1 ≤ f)
    (h2 : f ≤ 2 ^ 32 - 1) (h3 : perbit < 2 ^ 32 - 10 ^ 9) :
    1000000000 + (f >>> 1) < 2 ^ 32
      ∧ (spi_setfrequency perbit priv f).state.holdtime ≤ 500000
      ∧ 2000 * (spi_setfrequency perbit priv f).state.holdtime + perbit < 2 ^ 32
      ∧ spi_setfrequency perbit priv f = spi_setfrequency_unbounded perbit priv f := by
  obtain ⟨hpe, hpl⟩ := spi_period_exact f h1 (by omega)
  have hre := spi_remaining_exact perbit (spi_period f) (by omega)
  have hrl := spi_remaining_le perbit (spi_period f)
  obtain ⟨hhe, hhl⟩ := spi_hold_exact (spi_remaining perbit (spi_period f)) (by omega)
  have hst := setfrequency_stores_hold perbit priv f (by omega)
  refine ⟨?_, ?_, ?_, ?_⟩
  · rw [Nat.shiftRight_eq_div_pow]
    omega
  · rw [hst]
    exact hhl
  · rw [hst]
    omega
  · have hap : spi_actual_period perbit (spi_hold (spi_remaining perbit (spi_period f)))
        = 2000 * spi_hold (spi_remaining perbit (spi_period f)) + perbit := by
      unfold spi_actual_period
      exact Nat.mod_eq_of_lt (by omega)
    unfold spi_setfrequency spi_setfrequency_unbounded
    simp only [hap]
    rw [hhe, hre, hpe]

/-- Witness of C23 at 400 kHz with an overhead of 100 ns. -/
theorem spi_setfrequency_no_wrap_witness :
    1 ≤ 400000 ∧ 400000 ≤ 2 ^ 32 - 1 ∧ 100 < 2 ^ 32 - 10 ^ 9
      ∧ spi_setfrequency 100 ⟨0, bitexchange_t.bitexchange0, 8⟩ 400000
        = spi_setfrequency_unbounded 100 ⟨0, bitexchange_t.bitexchange0, 8⟩ 400000 :=
  ⟨by decide, by decide, by decide,
    (spi_setfrequency_no_wrap 100 ⟨0, bitexchange_t.bitexchange0, 8⟩ 400000 (by decide)
      (by decide) (by decide)).2.2.2⟩

/-! ## Variable-width word exchange -/

/-- C17 at a failing input: with width 4 on a loopback board, the word 5
exchanged when the uninitialised accumulator happens to hold 1 returns 21,
not 5; the low four bits are right and the stale accumulator is shifted into
bits 4 and above.  Only an accumulator that happens to hold 0 gives 5. -/
theorem spi_exchange_varwidth_stale :
    spi_exchange_varwidth loopback ⟨0, bitexchange_t.bitexchange0, 4⟩ 5 1 false
        = some (21, true)
      ∧ spi_exchange_varwidth loopback ⟨0, bitexchange_t.bitexchange0, 4⟩ 5 0 false
        = some (5, true)
      ∧ (5 : Nat) &&& 0xF = 5 := by
  decide

/-- C18, as stated, fails: configured with the width 17 the mask `1 << 16`
does not fit the `uint16_t` loop variable, the loop body never runs and the
call returns without having invoked the bit exchange at all. -/
theorem spi_exchange_varwidth_width17 :
    spi_exchange_varwidth (traced loopback) ⟨0, bitexchange_t.bitexchange0, 17⟩ 0xFFFF 0
        (false, [])
      = some (0, (false, []))
      ∧ wordOps ⟨0, bitexchange_t.bitexchange0, 17⟩ 0xFFFF 17 ≠ [] := by
  decide

/-- C18, amended: for every configured word width w with 1 <= w <= 16 the
variable-width word exchange terminates after invoking the active bit
exchange exactly w times, the k-th invocation (k = 0..w-1) carrying bit
position w - 1 - k of `dataout`. -/
theorem spi_exchange_varwidth_invocations {σ : Type} (c : Cap σ) (priv : spi_bitbang_s)
    (dataout datain : Nat) (s : σ) (log : List Op) (h1 : 1 ≤ priv.nbits)
    (h2 : priv.nbits ≤ 16) :
    ∃ r, spi_exchange_varwidth (traced c) priv dataout datain (s, log) = some r
      ∧ r.2.2 = log ++ (List.range priv.nbits).flatMap
          (fun k => waveformOps priv (dataout.testBit (priv.nbits - 1 - k))) := by
  obtain ⟨r, hr, hlog⟩ := varwidth_traced_log c priv dataout datain (s, log) h1 h2
  exact ⟨r, hr, by rw [hlog, wordOps_eq_flatMap]⟩

/-- Witness of the amended C18 at width 4. -/
theorem spi_exchange_varwidth_invocations_witness :
    1 ≤ (⟨0, bitexchange_t.bitexchange0, 4⟩ : spi_bitbang_s).nbits
      ∧ (⟨0, bitexchange_t.bitexchange0, 4⟩ : spi_bitbang_s).nbits ≤ 16
      ∧ ∃ r, spi_exchange_varwidth (traced loopback) ⟨0, bitexchange_t.bitexchange0, 4⟩ 5 0
            (false, []) = some r
          ∧ r.2.2 = [] ++ (List.range (⟨0, bitexchange_t.bitexchange0, 4⟩ : spi_bitbang_s).nbits).flatMap
              (fun k => waveformOps ⟨0, bitexchange_t.bitexchange0, 4⟩
                ((5 : Nat).testBit
                  ((⟨0, bitexchange_t.bitexchange0, 4⟩ : spi_bitbang_s).nbits - 1 - k))) :=
  ⟨by decide, by decide,
    spi_exchange_varwidth_invocations loopback ⟨0, bitexchange_t.bitexchange0, 4⟩ 5 0 false []
      (by decide) (by decide)⟩

/-- C24: for every mode, hold time, `dataout` and board, the variable-width
word exchange configured with the width 8 and entered with a zero accumulator
returns, with the same value and the same board state as the unrolled
fixed-width word exchange; run on a recording board, the two logs of pin and
delay operations are the same. -/
theorem spi_exchange_varwidth_refines {σ : Type} (c : Cap σ) (priv : spi_bitbang_s)
    (dataout : Nat) (s : σ) (log : List Op) :
    spi_exchange_varwidth c { priv with nbits := 8 } dataout 0 s
        = some (spi_exchange c { priv with nbits := 8 } dataout s)
      ∧ spi_exchange_varwidth (traced c) { priv with nbits := 8 } dataout 0 (s, log)
        = some (spi_exchange (traced c) { priv with nbits := 8 } dataout (s, log)) :=
  ⟨varwidth8_eq_fixed c _ dataout s rfl, varwidth8_eq_fixed (traced c) _ dataout (s, log) rfl⟩

/-! ## Frame and invariant of the bus context -/

/-- C21: `spi_setfrequency` changes only the stored hold time (the selected
bit exchange and the word width stay, and the board with its log of
operations is left as it was); `spi_setmode` changes only the selected bit
exchange (hold time and word width stay); a bit exchange and a word exchange
leave the whole context unchanged. -/
theorem bus_context_frame {σ : Type} (cfg : Config) (perbit : Nat) (c : Cap σ)
    (priv : spi_bitbang_s) (f mode d a : Nat) (s : σ) (log : List Op) :
    ((spi_setfrequency perbit priv f).state.exchange = priv.exchange
        ∧ (spi_setfrequency perbit priv f).state.nbits = priv.nbits
        ∧ (step perbit (traced c) (BusOp.setfrequency f) (priv, (s, log))).state.2 = (s, log))
      ∧ ((spi_setmode cfg c priv mode s).state.1.holdtime = priv.holdtime
        ∧ (spi_setmode cfg c priv mode s).state.1.nbits = priv.nbits)
      ∧ ((step perbit c (BusOp.bitexchange d) (priv, s)).state.1 = priv
        ∧ (step perbit c (BusOp.exchange d) (priv, s)).state.1 = priv
        ∧ (step perbit c (BusOp.exchange_varwidth d a) (priv, s)).state.1 = priv) := by
  refine ⟨⟨?_, ?_, ?_⟩, ⟨?_, ?_⟩, ⟨rfl, rfl, ?_⟩⟩
  · unfold spi_setfrequency
    simp only
    split_ifs <;> rfl
  · unfold spi_setfrequency
    simp only
    split_ifs <;> rfl
  · unfold step spi_setfrequency
    simp only
    split_ifs <;> rfl
  · rcases cfg with ⟨d0, d1, d2, d3⟩
    match mode with
    | 0 => cases d0 <;> rfl
    | 1 => cases d1 <;> rfl
    | 2 => cases d2 <;> rfl
    | 3 => cases d3 <;> rfl
    | n + 4 => rfl
  · rcases cfg with ⟨d0, d1, d2, d3⟩
    match mode with
    | 0 => cases d0 <;> rfl
    | 1 => cases d1 <;> rfl
    | 2 => cases d2 <;> rfl
    | 3 => cases d3 <;> rfl
    | n + 4 => rfl
  · unfold step
    simp only
    cases spi_exchange_varwidth c priv d a s <;> rfl

/-- C22: after `spi_setmode` selected an enabled mode, whatever finite
sequence of `spi_setfrequency` calls, bit exchanges and word exchanges
follows, the selected bit exchange is still the one of that mode and the
clock line is at the idle level of the mode (low for modes 0 and 1, high for
modes 2 and 3); a bit exchange of the mode writes the clock twice, first to
the opposite level and then back to the idle level. -/
theorem spi_mode_invariant (cfg : Config) (perbit : Nat) (priv : spi_bitbang_s) (mode : Nat)
    (s : Pins) (ops : List BusOp) (hm : modeEnabled cfg mode = true) :
    (run perbit pins ops (spi_setmode cfg pins priv mode s).state).1.exchange
        = modeExchange mode
      ∧ (run perbit pins ops (spi_setmode cfg pins priv mode s).state).2.sck = idleLevel mode
      ∧ ∀ (hold width : Nat) (b : Bool),
          clockLevels (waveformOps ⟨hold, modeExchange mode, width⟩ b)
            = [!idleLevel mode, idleLevel mode] := by
  obtain ⟨he, hs, hi⟩ := setmode_enabled_state cfg priv mode s hm
  obtain ⟨h1, h2⟩ := run_invariant perbit (modeExchange mode) ops _ he hs
  refine ⟨h1, ?_, ?_⟩
  · rw [h2, hi]
  · intro hold width b
    rw [clockLevels_waveformOps, hi]

/-- Witness of C22: mode 2, followed by a frequency change, a word exchange
and a bit exchange. -/
theorem spi_mode_invariant_witness :
    modeEnabled allModes 2 = true
      ∧ (run 100 pins [BusOp.setfrequency 400000, BusOp.exchange 0xA5, BusOp.bitexchange 1]
          (spi_setmode allModes pins ⟨0, bitexchange_t.bitexchange0, 8⟩ 2
            ⟨false, false, []⟩).state).2.sck = idleLevel 2 :=
  ⟨by decide,
    (spi_mode_invariant allModes 100 ⟨0, bitexchange_t.bitexchange0, 8⟩ 2 ⟨false, false, []⟩
      [BusOp.setfrequency 400000, BusOp.exchange 0xA5, BusOp.bitexchange 1] (by decide)).2.1⟩

/-! ## Hold-time delays -/

/-- C19, as stated, fails: in mode 0 with the hold time 1 no delay is
requested before the data-in line is sampled; both delays come after the
sampling edge. -/
theorem spi_bitexchange0_delays_after :
    waveformOps ⟨1, bitexchange_t.bitexchange0, 8⟩ true
        = [Op.setData true, Op.setClock true, Op.sampleData, Op.delay 1, Op.setClock false,
            Op.delay 1]
      ∧ delays (beforeSample (waveformOps ⟨1, bitexchange_t.bitexchange0, 8⟩ true)) = []
      ∧ delays (afterSample (waveformOps ⟨1, bitexchange_t.bitexchange0, 8⟩ true)) = [1, 1]
      ∧ ¬ (delays (beforeSample (waveformOps ⟨1, bitexchange_t.bitexchange0, 8⟩ true)) = [1]
          ∧ delays (afterSample (waveformOps ⟨1, bitexchange_t.bitexchange0, 8⟩ true)) = [1]) := by
  decide

/-- C19, amended: for every mode and every non-zero hold time h one bit
exchange requests exactly two delays, both of h; in modes 1 and 3 one is
requested before the clock edge at which data-in is sampled and one after
it, in modes 0 and 2 (which sample at the first edge) both are requested
after the sampling edge; with the hold time 0 no delay is requested. -/
theorem spi_bitexchange_delays (priv : spi_bitbang_s) (b : Bool) :
    delays (waveformOps priv b)
        = (if priv.holdtime ≠ 0 then [priv.holdtime, priv.holdtime] else [])
      ∧ delays (beforeSample (waveformOps priv b))
        = (if priv.holdtime ≠ 0 ∧ (priv.exchange = bitexchange_t.bitexchange1
              ∨ priv.exchange = bitexchange_t.bitexchange3)
            then [priv.holdtime] else [])
      ∧ delays (afterSample (waveformOps priv b))
        = (if priv.holdtime ≠ 0 then
            (if priv.exchange = bitexchange_t.bitexchange1
                ∨ priv.exchange = bitexchange_t.bitexchange3
              then [priv.holdtime] else [priv.holdtime, priv.holdtime])
          else []) := by
  refine ⟨delays_waveformOps priv b, ?_, ?_⟩ <;>
    rcases priv with ⟨h, e, n⟩ <;>
    unfold waveformOps call_exchange <;>
    cases e <;>
    simp only [spi_bitexchange0, spi_bitexchange1, spi_bitexchange2, spi_bitexchange3, traced] <;>
    cases b <;> by_cases hh : h = 0 <;> simp [hh, delays, beforeSample, afterSample]

/-- C20: the delays requested during one word exchange sum to the word
width times 2 times the hold time h: the fixed-width exchange requests
sixteen delays of h when h > 0 and none when h = 0, 16 * h in all, and the
variable-width exchange of width w, 1 <= w <= 16, returns having requested
delays of w * 2 * h in all. -/
theorem spi_exchange_delay_budget {σ : Type} (c : Cap σ) (priv : spi_bitbang_s)
    (dataout datain : Nat) (s : σ) (h1 : 1 ≤ priv.nbits) (h2 : priv.nbits ≤ 16) :
    delays (spi_exchange (traced c) priv dataout (s, [])).2.2
        = (if priv.holdtime ≠ 0 then List.replicate 16 priv.holdtime else [])
      ∧ (delays (spi_exchange (traced c) priv dataout (s, [])).2.2).sum = 16 * priv.holdtime
      ∧ ∃ r, spi_exchange_varwidth (traced c) priv dataout datain (s, []) = some r
          ∧ (delays r.2.2).sum = priv.nbits * 2 * priv.holdtime := by
  have hfix : delays (spi_exchange (traced c) priv dataout (s, [])).2.2
      = (if priv.holdtime ≠ 0 then List.replicate 16 priv.holdtime else []) := by
    simp only [spi_exchange, call_exchange_bit, call_exchange_traced_log, delays_append,
      delays_waveformOps]
    by_cases hh : priv.holdtime = 0
    · simp [hh, delays]
    · simp [hh, delays, List.replicate]
  refine ⟨hfix, ?_, ?_⟩
  · rw [hfix]
    by_cases hh : priv.holdtime = 0
    · simp [hh]
    · rw [if_pos hh, List.sum_replicate, smul_eq_mul]
  · obtain ⟨r, hr, hlog⟩ := varwidth_traced_log c priv dataout datain (s, []) h1 h2
    refine ⟨r, hr, ?_⟩
    rw [hlog, delays_append, List.sum_append, delays_wordOps_sum]
    simp [delays]

/-- Witness of C20 at width 4 with the hold time 3. -/
theorem spi_exchange_delay_budget_witness :
    1 ≤ (⟨3, bitexchange_t.bitexchange1, 4⟩ : spi_bitbang_s).nbits
      ∧ (⟨3, bitexchange_t.bitexchange1, 4⟩ : spi_bitbang_s).nbits ≤ 16
      ∧ (delays (spi_exchange (traced loopback) ⟨3, bitexchange_t.bitexchange1, 4⟩ 5
          (false, [])).2.2).sum
        = 16 * (⟨3, bitexchange_t.bitexchange1, 4⟩ : spi_bitbang_s).holdtime :=
  ⟨by decide, by decide,
    (spi_exchange_delay_budget loopback ⟨3, bitexchange_t.bitexchange1, 4⟩ 5 0 false
      (by decide) (by decide)).2.1⟩

end SpiBitbang

namespace Highpri

/-! ## Board demo handlers -/

/-- C25, as stated, fails: in a build with `CONFIG_STM32_ADC1_DMA` and
injected channels the regular block of `adc_handler` is compiled out, so
with the lock false and a regular end-of-conversion pending the regular
counter stays 7.  In a build without DMA the 32-bit counter at 2^32 - 1
goes to 0, not to 2^32, and from a current-channel index of 1 (a state the
demo never reaches) the store to `r_val` is out of bounds and the run has no
defined result. -/
theorem adc_handler_counter_unchanged :
    ((2 : Nat) % 2 ^ 32 &&& 2 ≠ 0)
      ∧ (adc_handler ⟨true, true⟩ 2 4 (fun v => v) ⟨2, 1234, fun _ => 0, 0⟩
          ⟨7, 0, 0, [0], [0], [0], [0], false⟩).map (fun r => r.1.cntr1) = some 7
      ∧ (adc_handler ⟨false, false⟩ 2 4 (fun v => v) ⟨2, 1234, fun _ => 0, 0⟩
          ⟨2 ^ 32 - 1, 0, 0, [0], [0], [], [], false⟩).map (fun r => r.1.cntr1) = some 0
      ∧ (adc_handler ⟨false, false⟩ 2 4 (fun v => v) ⟨2, 1234, fun _ => 0, 0⟩
          ⟨7, 0, 1, [0], [0], [], [], false⟩).map (fun r => r.1.cntr1) = none := by
  decide

/-- C25, amended: with the lock flag true a run of `adc_handler` and a run of
`dma2s0_handler` leave every field of the shared state as it was and
acknowledge exactly the pending flags they read; in a build without
`CONFIG_STM32_ADC1_DMA`, with the lock false, a regular end-of-conversion
pending and the current-channel index below `REG_NCHANNELS`, `adc_handler`
acknowledges the flags it read, increments the regular counter by 1 modulo
2^32 and leaves the current-channel index below `REG_NCHANNELS`. -/
theorem handlers_lock_frame {F : Type} (injected : Bool) (ADC_ISR_EOC ADC_ISR_JEOC : Nat)
    (conv : Nat → F) (hw : HwReads) (g : highpri_s F)
    (hE : hw.adc_int % 2 ^ 32 &&& ADC_ISR_EOC ≠ 0) (hc : g.current < REG_NCHANNELS) :
    (∀ (cfg : BuildConfig) (hw1 : HwReads) (g1 : highpri_s F),
        adc_handler cfg ADC_ISR_EOC ADC_ISR_JEOC conv hw1 { g1 with lock := true }
            = some ({ g1 with lock := true }, hw1.adc_int % 2 ^ 32)
          ∧ dma2s0_handler conv hw1 { g1 with lock := true }
            = ({ g1 with lock := true }, hw1.dma_int % 256))
      ∧ ∃ g2 : highpri_s F,
          adc_handler ⟨false, injected⟩ ADC_ISR_EOC ADC_ISR_JEOC conv hw { g with lock := false }
            = some (g2, hw.adc_int % 2 ^ 32)
          ∧ g2.cntr1 = (g.cntr1 + 1) % 2 ^ 32 ∧ g2.current < REG_NCHANNELS := by
  refine ⟨fun cfg hw1 g1 => ⟨rfl, rfl⟩, ?_⟩
  have hcur : g.current = 0 := by
    unfold REG_NCHANNELS at hc
    omega
  have hE2 : ¬ hw.adc_int % 4294967296 &&& ADC_ISR_EOC = 0 := hE
  cases injected <;> by_cases hJ : hw.adc_int % 4294967296 &&& ADC_ISR_JEOC = 0 <;>
    simp [adc_handler, hE2, hJ, hcur, REG_NCHANNELS, INJ_NCHANNELS,
      (by decide : List.range 1 = [0])]

/-- Witness of the amended C25: a regular end-of-conversion (flag 2) pending
on a zeroed shared state. -/
theorem handlers_lock_frame_witness :
    ((⟨2, 1234, fun _ => 0, 0⟩ : HwReads).adc_int % 2 ^ 32 &&& 2 ≠ 0)
      ∧ (⟨0, 0, 0, [0], [0], [], [], false⟩ : highpri_s Nat).current < REG_NCHANNELS
      ∧ ∃ g2 : highpri_s Nat,
          adc_handler ⟨false, false⟩ 2 4 (fun v => v) ⟨2, 1234, fun _ => 0, 0⟩
              { (⟨0, 0, 0, [0], [0], [], [], false⟩ : highpri_s Nat) with lock := false }
            = some (g2, (⟨2, 1234, fun _ => 0, 0⟩ : HwReads).adc_int % 2 ^ 32)
          ∧ g2.cntr1 = ((⟨0, 0, 0, [0], [0], [], [], false⟩ : highpri_s Nat).cntr1 + 1) % 2 ^ 32
          ∧ g2.current < REG_NCHANNELS :=
  ⟨by decide, by decide,
    (handlers_lock_frame false 2 4 (fun v => v) ⟨2, 1234, fun _ => 0, 0⟩
      ⟨0, 0, 0, [0], [0], [], [], false⟩ (by decide) (by decide)).2⟩

end Highpri
